import Mathlib

/-!
Shallow embedding of the LatentArithmetic "Latent Vacuum Engine" sources:
  src/latent_vacuum_engine.py  (v2.2 engine, 1000 cycles, one-shot burst latch)
  src/unnamed/part_000         (v2.2 engine, 100000 cycles, seeded RNG, burst counter)
  src/Wieger_3.py              (state generator / area table)
Python floats are modelled by real numbers; the per-cycle main loops are
modelled as step functions on explicit state.
-/

noncomputable section

open Real

/-- Engine constant `M_initial = 1.0` (both engine variants). -/
def M_initial : ℝ := 1.0

/-- Engine constant `N_MAX = 6` (both engine variants). -/
def N_MAX : ℕ := 6

/-- Engine constant `CYCLES = 1000` of src/latent_vacuum_engine.py. -/
def CYCLES : ℕ := 1000

/-- Engine constant `CYCLES = 100000` of src/unnamed/part_000. -/
def CYCLES_V2 : ℕ := 100000

/-- Engine constant `T_HOM = 0.8` (both engine variants). -/
def T_HOM : ℝ := 0.8

/-- Engine constant `DCE_DRIVE_BASE = 1e-6` (both engine variants). -/
def DCE_DRIVE_BASE : ℝ := 1e-6

/-- Engine constant `DCE_FACTOR = 1/(8π)` (both engine variants). -/
def DCE_FACTOR : ℝ := 1 / (8 * π)

/-- Engine constant `dt = 1.0` (both engine variants). -/
def dt : ℝ := 1.0

/-- Engine constant `M_PLANCK_CORE = 0.05` (both engine variants). -/
def M_PLANCK_CORE : ℝ := 0.05

/-- `measure_hom_visibility(T)` returns `T` (both engine variants). -/
def measure_hom_visibility (T : ℝ) : ℝ := T

/-- `apply_dce_drive(V, M)` from src/latent_vacuum_engine.py lines 87-95 and
src/unnamed/part_000 lines 69-72: `0.0` if `M <= 0`, else
`DCE_DRIVE_BASE * V / M ** 3`. -/
def apply_dce_drive (V M : ℝ) : ℝ :=
  if M ≤ 0 then 0 else DCE_DRIVE_BASE * V / M ^ 3

/-- `compute_dNdt(f_dot) = f_dot ** 2 * DCE_FACTOR` (both engine variants). -/
def compute_dNdt (f_dot : ℝ) : ℝ := f_dot ^ 2 * DCE_FACTOR

/-- `update_mass(M, dNdt, dt)` from src/latent_vacuum_engine.py lines 101-110
and src/unnamed/part_000 lines 77-81: if `M <= M_PLANCK_CORE` return `M`
(frozen core), otherwise `dMdt = -1.0/(15360*pi*M**2)` and `M + dMdt*dt`.
The `dNdt` argument is accepted but never read, exactly as in the source. -/
def update_mass (M dNdt dt : ℝ) : ℝ :=
  if M ≤ M_PLANCK_CORE then M
  else
    let dMdt : ℝ := -1 / (15360 * π * M ^ 2)
    M + dMdt * dt

/-- The mass produced by one cycle's mass pipeline from a cycle-start mass `M`:
`V = measure_hom_visibility(T_HOM)`, `f_dot = apply_dce_drive(V, M)`,
`dNdt = compute_dNdt(f_dot)`, `M_new = update_mass(M, dNdt, dt)`
(main-loop lines 129-136 of src/latent_vacuum_engine.py, 106-109 of part_000). -/
def nextMassOf (M : ℝ) : ℝ :=
  update_mass M (compute_dNdt (apply_dce_drive (measure_hom_visibility T_HOM) M)) dt

/-- A generated quantum state, represented by the subsystem-dimension list
`psi.dims[0]` of the qutip object, which is all the engine reads from it
(every generated state is a ket). -/
structure QObj where
  dims : List ℕ
deriving DecidableEq

/-- Failure mode of the state generator for negative mode counts. -/
inductive GenError where
  | invalidInput
deriving DecidableEq

/-- `generate_ghz_full(n)` from src/latent_vacuum_engine.py lines 66-73 (same
shape as `latent_state` in src/Wieger_3.py): `n == 0` yields `qt.fock(1, 0)`,
a single vacuum mode with dims `[1]`; `n > 0` yields the normalized tensor of
`n` two-level modes, dims `[2]*n`.  For `n < 0` the mode list `[zero]*n` is
empty and the quantum library's tensor of an empty list raises; per the spec
this is modelled as an InvalidInput error. -/
def generate_ghz_full (n : ℤ) : Except GenError QObj :=
  if n = 0 then Except.ok ⟨[1]⟩
  else if 0 < n then Except.ok ⟨List.replicate n.toNat 2⟩
  else Except.error GenError.invalidInput

/-- `compute_total_wigner_area(psi)` from src/latent_vacuum_engine.py lines
75-81: `n_modes = len(psi.dims[0])` for a ket, result
`max(n_modes, 1) * 2 * np.pi`. -/
def compute_total_wigner_area (psi : QObj) : ℝ :=
  (max psi.dims.length 1 : ℕ) * (2 * π)

/-- `area_expected = max(n, 1) * 2 * np.pi` (src/latent_vacuum_engine.py line
126, src/unnamed/part_000 line 105). -/
def area_expected (n : ℕ) : ℝ := (max n 1 : ℕ) * (2 * π)

/-- The anomaly tag set of one cycle of src/unnamed/part_000 (lines 113-119),
computed from the post-step mass:
`AREA_DRIFT` iff `abs(area_sim - area_expected) > 1e-10`,
`DCE_ANOMALY` iff `dNdt > 1e-6`, `WHITE_HOLE_BURST` iff `M <= M_PLANCK_CORE`. -/
structure AnomalyTags where
  area_drift : Prop
  dce_anomaly : Prop
  white_hole_burst : Prop

/-- The anomaly classification of src/unnamed/part_000 lines 113-119. -/
def classifyV2 (area_sim area_exp dNdt M : ℝ) : AnomalyTags :=
  ⟨|area_sim - area_exp| > 1e-10, dNdt > 1e-6, M ≤ M_PLANCK_CORE⟩

/-- One CycleRecord: the row logged per cycle by src/unnamed/part_000 lines
125-131 (the mass field is the value of `M` at logging time, i.e. after a
possible burst reset). -/
structure CycleRecord where
  cycle : ℕ
  n : ℕ
  area_sim : ℝ
  area_exp : ℝ
  V_hom : ℝ
  f_dot : ℝ
  dNdt : ℝ
  dMdt : ℝ
  M : ℝ
  anomaly : AnomalyTags

/-- One cycle of the src/unnamed/part_000 main loop (lines 103-131) from a
drawn mode count `n` and the carried state `(M, white_hole_count)`: computes
`area_sim = area_expected = max(n,1)*2π`, the drive pipeline, the mass step,
the anomaly tags on the post-step mass, then performs the burst reset
(`M = M_initial`, `white_hole_count += 1`) whenever `M <= M_PLANCK_CORE`,
and returns the logged record together with the next carried state. -/
def cycleV2 (cycle n : ℕ) (M : ℝ) (count : ℕ) : CycleRecord × ℝ × ℕ :=
  let area_sim : ℝ := (max n 1 : ℕ) * (2 * π)
  let area_exp : ℝ := area_sim
  let V := measure_hom_visibility T_HOM
  let f_dot := apply_dce_drive V M
  let dNdt := compute_dNdt f_dot
  let M_new := update_mass M dNdt dt
  let dMdt := (M_new - M) / dt
  let tags := classifyV2 area_sim area_exp dNdt M_new
  let next : ℝ × ℕ :=
    if M_new ≤ M_PLANCK_CORE then (M_initial, count + 1) else (M_new, count)
  (⟨cycle, n, area_sim, area_exp, V, f_dot, dNdt, dMdt, next.1, tags⟩, next)

/-- Running the src/unnamed/part_000 main loop for `fuel` more cycles starting
at cycle index `cyc` with carried state `(M, count)`, given the stream of
`np.random.randint(0, N_MAX+1)` draws (one per cycle index); returns the list
of logged CycleRecords in cycle order. -/
def runV2Aux (draws : ℕ → ℕ) : ℕ → ℕ → ℝ → ℕ → List CycleRecord
  | 0, _, _, _ => []
  | fuel + 1, cyc, M, count =>
    (cycleV2 cyc (draws cyc) M count).1 ::
      runV2Aux draws fuel (cyc + 1) (cycleV2 cyc (draws cyc) M count).2.1
        (cycleV2 cyc (draws cyc) M count).2.2

/-- A full src/unnamed/part_000 run of `C` cycles from `M = M_initial`,
`white_hole_count = 0`, over a given draw stream (the seeded numpy RNG is a
pure function of its seed, so a seed determines the stream). -/
def runV2 (C : ℕ) (draws : ℕ → ℕ) : List CycleRecord :=
  runV2Aux draws C 0 M_initial 0

/-- The mutable run state of the src/latent_vacuum_engine.py main loop:
current mass `M`, the one-shot `white_hole_triggered` latch, and the length
of the `anomalies` burst list. -/
structure EngineState where
  M : ℝ
  white_hole_triggered : Bool
  burst_count : ℕ
deriving DecidableEq

/-- One cycle of the src/latent_vacuum_engine.py main loop (lines 120-150),
restricted to the carried state (the drawn `n` affects only logging): the
drive pipeline and mass step, then the white-hole branch
`if M <= M_PLANCK_CORE and not white_hole_triggered` which appends a burst,
sets the latch and resets `M = M_initial`. -/
def stepEngine (s : EngineState) : EngineState :=
  let V := measure_hom_visibility T_HOM
  let f_dot := apply_dce_drive V s.M
  let dNdt := compute_dNdt f_dot
  let M_new := update_mass s.M dNdt dt
  if M_new ≤ M_PLANCK_CORE ∧ s.white_hole_triggered = false then
    ⟨M_initial, true, s.burst_count + 1⟩
  else
    ⟨M_new, s.white_hole_triggered, s.burst_count⟩

/-- The src/latent_vacuum_engine.py run state at the start of cycle `k`
(cycle 0 starts from `M = M_initial`, latch off, no bursts). -/
def engineRun (k : ℕ) : EngineState :=
  stepEngine^[k] ⟨M_initial, false, 0⟩

/-- Whether the cycle starting at state `s` of src/latent_vacuum_engine.py
emits the `WHITE_HOLE_BURST` tag (line 146-147): the post-step mass is at or
below the core and the latch is not yet set. -/
def whiteHoleTagEngine (s : EngineState) : Prop :=
  nextMassOf s.M ≤ M_PLANCK_CORE ∧ s.white_hole_triggered = false

/-! ### Basic lemmas about the embedded definitions -/

lemma M_PLANCK_CORE_eq : M_PLANCK_CORE = 0.05 := rfl

lemma M_initial_eq : M_initial = 1 := by norm_num [M_initial]

lemma dt_eq : dt = 1 := by norm_num [dt]

lemma evap_denom_pos {M : ℝ} (hM : 0 < M) : 0 < 15360 * π * M ^ 2 := by
  have h2 : 0 < M ^ 2 := pow_pos hM 2
  have hπ := Real.pi_pos
  nlinarith

lemma evap_term_pos {M : ℝ} (hM : 0 < M) : 0 < 1 / (15360 * π * M ^ 2) :=
  one_div_pos.mpr (evap_denom_pos hM)

lemma update_mass_of_le {M f Δ : ℝ} (h : M ≤ M_PLANCK_CORE) :
    update_mass M f Δ = M := by
  simp only [update_mass, if_pos h]

lemma update_mass_of_gt {M f Δ : ℝ} (h : M_PLANCK_CORE < M) :
    update_mass M f Δ = M - Δ / (15360 * π * M ^ 2) := by
  simp only [update_mass, if_neg (not_le.mpr h)]
  ring

lemma nextMassOf_of_le {M : ℝ} (h : M ≤ M_PLANCK_CORE) : nextMassOf M = M :=
  update_mass_of_le h

lemma nextMassOf_of_gt {M : ℝ} (h : M_PLANCK_CORE < M) :
    nextMassOf M = M - 1 / (15360 * π * M ^ 2) := by
  rw [nextMassOf, update_mass_of_gt h, dt_eq]

/-- While the mass is at least `0.9`, a single evaporation decrement is at
most `3e-5`. -/
lemma evap_term_le {M : ℝ} (h : (0.9 : ℝ) ≤ M) :
    1 / (15360 * π * M ^ 2) ≤ 3e-5 := by
  have hM : 0 < M := by linarith
  have hd := evap_denom_pos hM
  rw [div_le_iff hd]
  have hπ : (3 : ℝ) ≤ π := le_of_lt Real.pi_gt_three
  have hM2 : (0.81 : ℝ) ≤ M ^ 2 := by nlinarith [sq_nonneg (M - 0.9)]
  nlinarith [mul_le_mul hπ hM2 (by norm_num) (by linarith)]

/-- Above the core mass, a single evaporation decrement is less than `0.009`. -/
lemma evap_term_lt {M : ℝ} (h : M_PLANCK_CORE < M) :
    1 / (15360 * π * M ^ 2) < 0.009 := by
  rw [M_PLANCK_CORE_eq] at h
  have hM : 0 < M := by linarith
  have hd := evap_denom_pos hM
  rw [div_lt_iff hd]
  have hπ : (3 : ℝ) ≤ π := le_of_lt Real.pi_gt_three
  have hM2 : (0.0025 : ℝ) ≤ M ^ 2 := by nlinarith [sq_nonneg (M - 0.05)]
  nlinarith [mul_le_mul hπ hM2 (by norm_num) (by linarith)]

/-! ### C4: the mass evolution step -/

/-- C4: `step_mass` (`update_mass`) returns `M` unchanged whenever
`M ≤ M_core`, and for every `M > M_core` and every `Δt > 0` it returns
exactly `M − Δt/(15360π·M²)`, a value strictly less than `M`. -/
theorem c4_step_mass (M f Δt : ℝ) :
    (M ≤ M_PLANCK_CORE → update_mass M f Δt = M) ∧
    (M_PLANCK_CORE < M → 0 < Δt →
      update_mass M f Δt = M - Δt / (15360 * π * M ^ 2) ∧
        update_mass M f Δt < M) := by
  refine ⟨fun h => update_mass_of_le h, fun h hΔt => ?_⟩
  have hM : 0 < M := lt_trans (by rw [M_PLANCK_CORE_eq]; norm_num) h
  have hpos : 0 < Δt / (15360 * π * M ^ 2) := div_pos hΔt (evap_denom_pos hM)
  refine ⟨update_mass_of_gt h, ?_⟩
  rw [update_mass_of_gt h]
  linarith

/-- Witness for C4 at `M = 0.04` (frozen) and `M = 1`, `Δt = 1` (decay). -/
theorem c4_step_mass_witness :
    update_mass 0.04 7 1 = 0.04 ∧
      update_mass 1 7 1 = 1 - 1 / (15360 * π * 1 ^ 2) ∧ update_mass 1 7 1 < 1 :=
  ⟨(c4_step_mass 0.04 7 1).1 (by rw [M_PLANCK_CORE_eq]; norm_num),
   ((c4_step_mass 1 7 1).2 (by rw [M_PLANCK_CORE_eq]; norm_num) (by norm_num)).1,
   ((c4_step_mass 1 7 1).2 (by rw [M_PLANCK_CORE_eq]; norm_num) (by norm_num)).2⟩

/-! ### C5: the mass step ignores the flux rate -/

/-- C5: the mass-evolution step does not depend on its flux-rate argument:
`update_mass M f₁ Δt = update_mass M f₂ Δt` for all masses, flux rates and
time steps. -/
theorem c5_flux_independent (M f₁ f₂ Δt : ℝ) :
    update_mass M f₁ Δt = update_mass M f₂ Δt := rfl

/-! ### C6: the drive model -/

/-- C6 counterexample: `drive_rate` is not strictly decreasing in the mass for
every visibility — at visibility `0` it is constantly `0`, so the claim's
monotonicity clause fails at `V = 0`, `M₁ = 1 < M₂ = 2`. -/
theorem c6_counterexample :
    ¬ (∀ V M₁ M₂ : ℝ, 0 < M₁ → M₁ < M₂ →
        apply_dce_drive V M₂ < apply_dce_drive V M₁) := by
  intro h
  have h2 := h 0 1 2 (by norm_num) (by norm_num)
  have e1 : apply_dce_drive 0 1 = 0 := by norm_num [apply_dce_drive]
  have e2 : apply_dce_drive 0 2 = 0 := by norm_num [apply_dce_drive]
  rw [e1, e2] at h2
  exact lt_irrefl 0 h2

/-- C6 amended: `drive_rate(V, M)` returns `0` whenever `M ≤ 0`, returns
`DCE_DRIVE_BASE × V / M³` otherwise, and for `M > 0` it is strictly
decreasing in `M` whenever `V > 0`. -/
theorem c6_drive_rate (V M : ℝ) :
    (M ≤ 0 → apply_dce_drive V M = 0) ∧
    (0 < M → apply_dce_drive V M = DCE_DRIVE_BASE * V / M ^ 3) ∧
    (∀ M₁ M₂ : ℝ, 0 < V → 0 < M₁ → M₁ < M₂ →
      apply_dce_drive V M₂ < apply_dce_drive V M₁) := by
  refine ⟨fun h => by simp only [apply_dce_drive, if_pos h],
    fun h => by simp only [apply_dce_drive, if_neg (not_le.mpr h)],
    fun M₁ M₂ hV h₁ h₁₂ => ?_⟩
  have h₂ : 0 < M₂ := lt_trans h₁ h₁₂
  have hb : 0 < DCE_DRIVE_BASE * V := by
    have : (0 : ℝ) < DCE_DRIVE_BASE := by norm_num [DCE_DRIVE_BASE]
    exact mul_pos this hV
  have hp₁ : 0 < M₁ ^ 3 := pow_pos h₁ 3
  have hp₂ : 0 < M₂ ^ 3 := pow_pos h₂ 3
  have hlt : M₁ ^ 3 < M₂ ^ 3 := pow_lt_pow_left h₁₂ h₁.le (by norm_num)
  simp only [apply_dce_drive, if_neg (not_le.mpr h₁), if_neg (not_le.mpr h₂)]
  rw [div_lt_div_iff hp₂ hp₁]
  nlinarith [mul_pos hb (sub_pos.mpr hlt)]

/-- Witness for C6 amended at `V = 1`, masses `-1`, `2`, and the strictly
decreasing pair `2 < 3`. -/
theorem c6_drive_rate_witness :
    apply_dce_drive 1 (-1) = 0 ∧
      apply_dce_drive 1 2 = DCE_DRIVE_BASE * 1 / 2 ^ 3 ∧
      apply_dce_drive 1 3 < apply_dce_drive 1 2 :=
  ⟨(c6_drive_rate 1 (-1)).1 (by norm_num),
   (c6_drive_rate 1 2).2.1 (by norm_num),
   (c6_drive_rate 1 0).2.2 2 3 (by norm_num) (by norm_num) (by norm_num)⟩

/-! ### C7: generated states have exactly the expected area -/

/-- C7: for every mode count `n ≤ N_MAX`, the area extracted from the
generator's state equals `area_expected n = max(n,1)·2π` exactly (hence
within `1e-10`, so the `AREA_DRIFT` tag never fires on it), and `n = 0`
yields area `2π`, which is nonzero. -/
theorem c7_area_law (n : ℕ) (hn : n ≤ N_MAX) (q : QObj)
    (hq : generate_ghz_full (n : ℤ) = Except.ok q) :
    compute_total_wigner_area q = area_expected n ∧
      |compute_total_wigner_area q - area_expected n| ≤ 1e-10 ∧
      (∀ dN M : ℝ,
        ¬ (classifyV2 (compute_total_wigner_area q) (area_expected n) dN M).area_drift) ∧
      area_expected 0 = 2 * π ∧ area_expected 0 ≠ 0 := by
  have h2π : (0 : ℝ) < 2 * π := by positivity
  have hexp0 : area_expected 0 = 2 * π := by
    simp [area_expected]
  have heq : compute_total_wigner_area q = area_expected n := by
    cases n with
    | zero =>
      have : q = ⟨[1]⟩ := by
        simpa [generate_ghz_full] using hq.symm
      subst this
      simp [compute_total_wigner_area, area_expected]
    | succ m =>
      have hne : ¬ ((m : ℤ) + 1 = 0) := by omega
      have hpos : (0 : ℤ) < (m : ℤ) + 1 := by omega
      have e : generate_ghz_full ((m + 1 : ℕ) : ℤ) =
          Except.ok ⟨List.replicate (m + 1) 2⟩ := by
        simp [generate_ghz_full, hne, hpos]
      rw [e] at hq
      have : (⟨List.replicate (m + 1) 2⟩ : QObj) = q := Except.ok.inj hq
      subst this
      simp [compute_total_wigner_area, area_expected]
  refine ⟨heq, by rw [heq, sub_self, abs_zero]; norm_num,
    fun dN M hdrift => ?_, hexp0, by rw [hexp0]; exact ne_of_gt h2π⟩
  rw [heq] at hdrift
  simp only [classifyV2, sub_self, abs_zero] at hdrift
  exact absurd hdrift (by norm_num)

/-- Witness for C7 at `n = 0` (the vacuum placeholder, one mode). -/
theorem c7_area_law_witness :
    compute_total_wigner_area ⟨[1]⟩ = area_expected 0 ∧
      |compute_total_wigner_area ⟨[1]⟩ - area_expected 0| ≤ 1e-10 ∧
      (∀ dN M : ℝ,
        ¬ (classifyV2 (compute_total_wigner_area ⟨[1]⟩) (area_expected 0) dN M).area_drift) ∧
      area_expected 0 = 2 * π ∧ area_expected 0 ≠ 0 :=
  c7_area_law 0 (by norm_num [N_MAX]) ⟨[1]⟩ rfl

/-! ### C8: generator domain and error handling -/

/-- C8: the state generator succeeds for every mode count `n ≥ 0`, yielding
the single-mode vacuum placeholder for `n = 0`, and fails with an
InvalidInput error for every negative `n`. -/
theorem c8_generator_domain (n : ℤ) :
    (0 ≤ n → ∃ q, generate_ghz_full n = Except.ok q) ∧
      generate_ghz_full 0 = Except.ok ⟨[1]⟩ ∧
      (n < 0 → generate_ghz_full n = Except.error GenError.invalidInput) := by
  refine ⟨fun h0 => ?_, by simp [generate_ghz_full], fun hneg => ?_⟩
  · by_cases hz : n = 0
    · exact ⟨⟨[1]⟩, by simp [generate_ghz_full, hz]⟩
    · have hpos : 0 < n := lt_of_le_of_ne h0 (Ne.symm hz)
      exact ⟨⟨List.replicate n.toNat 2⟩, by simp [generate_ghz_full, hz, hpos]⟩
  · have hz : n ≠ 0 := ne_of_lt hneg
    have : ¬ (0 < n) := not_lt.mpr (le_of_lt hneg)
    simp [generate_ghz_full, hz, this]

/-- Witness for C8 at `n = 3` (success) and `n = -1` (InvalidInput). -/
theorem c8_generator_domain_witness :
    (∃ q, generate_ghz_full 3 = Except.ok q) ∧
      generate_ghz_full (-1) = Except.error GenError.invalidInput :=
  ⟨(c8_generator_domain 3).1 (by norm_num),
   (c8_generator_domain (-1)).2.2 (by norm_num)⟩

/-! ### Lemmas about the src/latent_vacuum_engine.py main loop -/

lemma stepEngine_eq (s : EngineState) :
    stepEngine s =
      if nextMassOf s.M ≤ M_PLANCK_CORE ∧ s.white_hole_triggered = false then
        ⟨M_initial, true, s.burst_count + 1⟩
      else ⟨nextMassOf s.M, s.white_hole_triggered, s.burst_count⟩ := rfl

lemma cycleV2_next (c n : ℕ) (M : ℝ) (count : ℕ) :
    (cycleV2 c n M count).2 =
      if nextMassOf M ≤ M_PLANCK_CORE then (M_initial, count + 1)
      else (nextMassOf M, count) := rfl

lemma engineRun_succ (k : ℕ) : engineRun (k + 1) = stepEngine (engineRun k) :=
  Function.iterate_succ_apply' _ _ _

/-- Within the 1000 cycles of the src/latent_vacuum_engine.py run, the mass at
the start of cycle `k` is at least `1 - k·3e-5`, the white-hole latch is still
off and no burst has been recorded: the decay is far too slow for the mass to
reach `M_PLANCK_CORE` within the run. -/
lemma engineRun_inv : ∀ k : ℕ, k ≤ CYCLES →
    1 - (k : ℝ) * 3e-5 ≤ (engineRun k).M ∧
      (engineRun k).white_hole_triggered = false ∧
      (engineRun k).burst_count = 0 := by
  intro k
  induction k with
  | zero =>
    intro _
    refine ⟨?_, rfl, rfl⟩
    show (1 : ℝ) - (0 : ℕ) * 3e-5 ≤ M_initial
    rw [M_initial_eq]; norm_num
  | succ k ih =>
    intro hk1
    have hkC : k ≤ CYCLES := Nat.le_of_succ_le hk1
    obtain ⟨hM, hT, hC⟩ := ih hkC
    have hk999 : (k : ℝ) ≤ 999 := by
      have h9 : k ≤ 999 := by
        have : k + 1 ≤ 1000 := by simpa [CYCLES] using hk1
        omega
      exact_mod_cast h9
    have hM09 : (0.9 : ℝ) ≤ (engineRun k).M := by nlinarith
    have hMgt : M_PLANCK_CORE < (engineRun k).M := by
      rw [M_PLANCK_CORE_eq]; linarith
    have hnext : nextMassOf (engineRun k).M
        = (engineRun k).M - 1 / (15360 * π * (engineRun k).M ^ 2) :=
      nextMassOf_of_gt hMgt
    have hdec := evap_term_le hM09
    have hlow : 1 - ((k : ℝ) + 1) * 3e-5 ≤ nextMassOf (engineRun k).M := by
      rw [hnext]; nlinarith
    have hne : ¬ (nextMassOf (engineRun k).M ≤ M_PLANCK_CORE) := by
      rw [M_PLANCK_CORE_eq]; push_neg
      have hcap : ((k : ℝ) + 1) * 3e-5 ≤ 1000 * 3e-5 := by nlinarith
      linarith
    rw [engineRun_succ, stepEngine_eq, if_neg (fun h => hne h.1)]
    refine ⟨?_, hT, hC⟩
    show 1 - ((k + 1 : ℕ) : ℝ) * 3e-5 ≤ nextMassOf (engineRun k).M
    push_cast
    exact hlow

lemma stepEngine_M_pos {s : EngineState} (h : 0 < s.M) : 0 < (stepEngine s).M := by
  rw [stepEngine_eq]
  by_cases hc : nextMassOf s.M ≤ M_PLANCK_CORE ∧ s.white_hole_triggered = false
  · rw [if_pos hc]
    show (0 : ℝ) < M_initial
    rw [M_initial_eq]; norm_num
  · rw [if_neg hc]
    show (0 : ℝ) < nextMassOf s.M
    by_cases hle : s.M ≤ M_PLANCK_CORE
    · rw [nextMassOf_of_le hle]; exact h
    · push_neg at hle
      have h1 := evap_term_lt hle
      have h2 : (0.05 : ℝ) < s.M := by rw [M_PLANCK_CORE_eq] at hle; exact hle
      rw [nextMassOf_of_gt hle]; linarith

lemma engineRun_M_pos : ∀ k : ℕ, 0 < (engineRun k).M := by
  intro k
  induction k with
  | zero =>
    show (0 : ℝ) < M_initial
    rw [M_initial_eq]; norm_num
  | succ k ih =>
    rw [engineRun_succ]
    exact stepEngine_M_pos ih

/-! ### C1: bursts increment the counter by one and reset the mass -/

/-- C1: whenever the mass crosses into `[0, M_core]` from above within a
cycle, the burst counter increases by exactly 1 and the next cycle begins
with mass exactly `M_initial`: in the src/unnamed/part_000 loop this holds
for every crossing; in the src/latent_vacuum_engine.py loop it holds for
every crossing from an un-latched state, and every cycle of that engine's
1000-cycle run starts un-latched with mass still above the core (so the
one-shot latch never suppresses a crossing within the run). -/
theorem c1_burst_reset :
    (∀ (c n : ℕ) (M : ℝ) (count : ℕ),
      M_PLANCK_CORE < M → nextMassOf M ≤ M_PLANCK_CORE →
        (cycleV2 c n M count).2.1 = M_initial ∧
        (cycleV2 c n M count).2.2 = count + 1) ∧
    (∀ (M : ℝ) (count : ℕ),
      M_PLANCK_CORE < M → nextMassOf M ≤ M_PLANCK_CORE →
        stepEngine ⟨M, false, count⟩ = ⟨M_initial, true, count + 1⟩) ∧
    (∀ k : ℕ, k ≤ CYCLES →
      M_PLANCK_CORE < (engineRun k).M ∧
        (engineRun k).white_hole_triggered = false) := by
  refine ⟨fun c n M count _ hle => ?_, fun M count _ hle => ?_, fun k hk => ?_⟩
  · rw [cycleV2_next, if_pos hle]
    exact ⟨rfl, rfl⟩
  · rw [stepEngine_eq, if_pos ⟨hle, rfl⟩]
  · obtain ⟨hM, hT, _⟩ := engineRun_inv k hk
    have hkR : (k : ℝ) ≤ 1000 := by
      have : k ≤ 1000 := by simpa [CYCLES] using hk
      exact_mod_cast this
    refine ⟨?_, hT⟩
    rw [M_PLANCK_CORE_eq]
    nlinarith

/-- Witness for C1 at the crossing mass `0.055` and at cycle 0 of the engine
run. -/
theorem c1_burst_reset_witness :
    (cycleV2 0 3 0.055 0).2.1 = M_initial ∧
      (cycleV2 0 3 0.055 0).2.2 = 0 + 1 ∧
      stepEngine ⟨0.055, false, 0⟩ = ⟨M_initial, true, 0 + 1⟩ ∧
      M_PLANCK_CORE < (engineRun 0).M ∧
      (engineRun 0).white_hole_triggered = false := by
  have hgt : M_PLANCK_CORE < (0.055 : ℝ) := by rw [M_PLANCK_CORE_eq]; norm_num
  have hle : nextMassOf (0.055 : ℝ) ≤ M_PLANCK_CORE := by
    rw [nextMassOf_of_gt hgt, M_PLANCK_CORE_eq]
    have hd : (0 : ℝ) < 15360 * π * (0.055 : ℝ) ^ 2 := evap_denom_pos (by norm_num)
    have hbig : (0.005 : ℝ) ≤ 1 / (15360 * π * (0.055 : ℝ) ^ 2) := by
      rw [le_div_iff hd]
      nlinarith [Real.pi_le_four, Real.pi_pos]
    linarith
  exact ⟨(c1_burst_reset.1 0 3 0.055 0 hgt hle).1,
    (c1_burst_reset.1 0 3 0.055 0 hgt hle).2,
    c1_burst_reset.2.1 0.055 0 hgt hle,
    (c1_burst_reset.2.2 0 (by norm_num [CYCLES])).1,
    (c1_burst_reset.2.2 0 (by norm_num [CYCLES])).2⟩

/-! ### C2: the WHITE_HOLE_BURST tag tracks the post-step mass -/

/-- C2: the `WHITE_HOLE_BURST` tag is emitted iff the post-step mass is at
most `M_PLANCK_CORE`: unconditionally in the src/unnamed/part_000 classifier,
and in every cycle of the src/latent_vacuum_engine.py 1000-cycle run (where
the latch that could suppress the tag is never set). -/
theorem c2_white_hole_tag :
    (∀ area_sim area_exp dNdt M : ℝ,
      (classifyV2 area_sim area_exp dNdt M).white_hole_burst ↔
        M ≤ M_PLANCK_CORE) ∧
    (∀ k : ℕ, k < CYCLES →
      (whiteHoleTagEngine (engineRun k) ↔
        nextMassOf (engineRun k).M ≤ M_PLANCK_CORE)) := by
  refine ⟨fun _ _ _ _ => Iff.rfl, fun k hk => ?_⟩
  have hT := (engineRun_inv k (le_of_lt hk)).2.1
  exact ⟨fun h => h.1, fun h => ⟨h, hT⟩⟩

/-- Witness for C2 at cycle 0 of the engine run. -/
theorem c2_white_hole_tag_witness :
    whiteHoleTagEngine (engineRun 0) ↔
      nextMassOf (engineRun 0).M ≤ M_PLANCK_CORE :=
  c2_white_hole_tag.2 0 (by norm_num [CYCLES])

/-! ### C9: the one-shot latch of src/latent_vacuum_engine.py -/

lemma stepEngine_triggered_eq (M : ℝ) (c : ℕ) :
    stepEngine ⟨M, true, c⟩ = ⟨nextMassOf M, true, c⟩ := by
  rw [stepEngine_eq, if_neg]
  simp

/-- C9: in the src/latent_vacuum_engine.py engine, once a burst has been
recorded (latch set), a cycle only applies the mass step — the tag is never
emitted again at any later cycle, and once the mass is at or below
`M_PLANCK_CORE` the state is frozen exactly (never reset to `M_initial`)
for all remaining cycles. -/
theorem c9_one_shot_latch (M : ℝ) (c : ℕ) :
    stepEngine ⟨M, true, c⟩ = ⟨nextMassOf M, true, c⟩ ∧
    (∀ k : ℕ, (stepEngine^[k] ⟨M, true, c⟩).white_hole_triggered = true ∧
      ¬ whiteHoleTagEngine (stepEngine^[k] ⟨M, true, c⟩)) ∧
    (M ≤ M_PLANCK_CORE → ∀ k : ℕ, stepEngine^[k] ⟨M, true, c⟩ = ⟨M, true, c⟩) := by
  have htrig : ∀ s : EngineState, s.white_hole_triggered = true →
      (stepEngine s).white_hole_triggered = true := by
    intro s hs
    rw [stepEngine_eq]
    by_cases hc : nextMassOf s.M ≤ M_PLANCK_CORE ∧ s.white_hole_triggered = false
    · rw [if_pos hc]
    · rw [if_neg hc]; exact hs
  refine ⟨stepEngine_triggered_eq M c, fun k => ?_, fun hle k => ?_⟩
  · have ht : (stepEngine^[k] ⟨M, true, c⟩).white_hole_triggered = true := by
      induction k with
      | zero => rfl
      | succ k ih => rw [Function.iterate_succ_apply']; exact htrig _ ih
    refine ⟨ht, fun htag => ?_⟩
    have h2 : (stepEngine^[k] ⟨M, true, c⟩).white_hole_triggered = false := htag.2
    rw [ht] at h2
    exact absurd h2 (by simp)
  · have hfix : stepEngine ⟨M, true, c⟩ = ⟨M, true, c⟩ := by
      rw [stepEngine_triggered_eq, nextMassOf_of_le hle]
    exact Function.iterate_fixed hfix k

/-- Witness for C9: a latched, frozen state below the core stays put for 3
cycles. -/
theorem c9_one_shot_latch_witness :
    stepEngine^[3] ⟨0.04, true, 2⟩ = ⟨0.04, true, 2⟩ :=
  (c9_one_shot_latch 0.04 2).2.2 (by rw [M_PLANCK_CORE_eq]; norm_num) 3

/-! ### C10: the mass stays strictly positive -/

/-- C10: in every reachable state of the src/latent_vacuum_engine.py run the
mass is strictly positive, so `apply_dce_drive` always takes its
`mass > 0` branch there; moreover each decay step from `M > M_PLANCK_CORE`
subtracts at most `dt/(15360π·M_PLANCK_CORE²)`, which is less than
`M_PLANCK_CORE`. -/
theorem c10_mass_positive (k : ℕ) :
    0 < (engineRun k).M ∧
    apply_dce_drive (measure_hom_visibility T_HOM) (engineRun k).M
      = DCE_DRIVE_BASE * measure_hom_visibility T_HOM / (engineRun k).M ^ 3 ∧
    (∀ M : ℝ, M_PLANCK_CORE < M →
      M - nextMassOf M ≤ dt / (15360 * π * M_PLANCK_CORE ^ 2)) ∧
    dt / (15360 * π * M_PLANCK_CORE ^ 2) < M_PLANCK_CORE := by
  have hpos := engineRun_M_pos k
  refine ⟨hpos, ?_, fun M hM => ?_, ?_⟩
  · simp only [apply_dce_drive, if_neg (not_le.mpr hpos)]
  · rw [nextMassOf_of_gt hM, dt_eq, sub_sub_cancel]
    rw [M_PLANCK_CORE_eq] at hM ⊢
    have hM2 : (0.05 : ℝ) ^ 2 ≤ M ^ 2 := by nlinarith [sq_nonneg (M - 0.05)]
    have h15 : (0 : ℝ) ≤ 15360 * π := by positivity
    exact one_div_le_one_div_of_le (evap_denom_pos (by norm_num))
      (mul_le_mul_of_nonneg_left hM2 h15)
  · rw [dt_eq, M_PLANCK_CORE_eq, div_lt_iff (evap_denom_pos (by norm_num))]
    nlinarith [Real.pi_gt_three]

/-- Witness for C10's decay-bound hypothesis at `M = 1`, cycle 0. -/
theorem c10_mass_positive_witness :
    1 - nextMassOf 1 ≤ dt / (15360 * π * M_PLANCK_CORE ^ 2) :=
  (c10_mass_positive 0).2.2.1 1 (by rw [M_PLANCK_CORE_eq]; norm_num)

/-! ### C3: determinism of the seeded run -/

lemma runV2Aux_congr (d₁ d₂ : ℕ → ℕ) : ∀ (fuel cyc : ℕ) (M : ℝ) (count : ℕ),
    (∀ j, cyc ≤ j → j < cyc + fuel → d₁ j = d₂ j) →
    runV2Aux d₁ fuel cyc M count = runV2Aux d₂ fuel cyc M count := by
  intro fuel
  induction fuel with
  | zero => intro _ _ _ _; rfl
  | succ f ih =>
    intro cyc M count h
    have h0 : d₁ cyc = d₂ cyc := h cyc le_rfl (by omega)
    simp only [runV2Aux, h0]
    exact congrArg _ (ih (cyc + 1) _ _ fun j hj hj2 => h j (by omega) (by omega))

/-- C3: the full CycleRecord sequence of a `C`-cycle run of the
src/unnamed/part_000 engine is a function of the parameters and of the first
`C` values of the RNG draw stream alone — two runs whose streams agree on
those draws (in particular, two runs seeded identically, since the seeded
numpy RNG determines its draw stream) produce identical record sequences. -/
theorem c3_determinism (C : ℕ) (d₁ d₂ : ℕ → ℕ)
    (h : ∀ k, k < C → d₁ k = d₂ k) : runV2 C d₁ = runV2 C d₂ :=
  runV2Aux_congr d₁ d₂ C 0 M_initial 0 fun j _ hj2 => h j (by omega)

/-- Witness for C3: two draw streams that agree on the two consumed draws
(but nowhere beyond) give identical 2-cycle runs. -/
theorem c3_determinism_witness :
    runV2 2 (fun _ => 0) = runV2 2 (fun k => if k < 2 then 0 else 7) :=
  c3_determinism 2 _ _ (by intro k hk; simp [hk])

end
